import Mathlib

/-!
Verification of the LuminOrder frame-reordering pipeline.

Shallow embedding of `src/src/LuminOrderApp.cpp` (Cinder app that reorders the
frames of a movie by mean pixel brightness) and proofs of the specification's
claims about it.

Modelling conventions:
* C `double` arithmetic is embedded as exact rational arithmetic (`ℚ`).
* C `int` frame indices are embedded as `ℕ`: in the program they start at
  `START_FRAME ≥ 0` and only ever increase.
* The QuickTime movie source is abstracted as a decode function
  `ℕ → Option Surface` (`none` models a decode failure / thrown exception).
* File I/O is modelled by returning the data that would be written
  (`offsets.txt` as a list of `(index, brightness)` lines, the output movie as
  the list of source indices of the appended frames).
-/

namespace LuminOrder

/-- Config macro `START_FRAME` = 0 (LuminOrderApp.cpp line 41): number of leading
source frames to skip.  The pipeline functions below take the start frame as a
parameter; this constant is the configured default. -/
def START_FRAME : ℕ := 0

/-- Config macro `ROUND_TO` = `10e-3` (LuminOrderApp.cpp line 42): the brightness
bucket width used by the comparator.  `10e-3 = 10 · 10⁻³ = 1/100`. -/
def ROUND_TO : ℚ := 10 / 1000

/-- C `round()` from `<math.h>`: round to nearest integer, halfway cases away
from zero.  For `0 ≤ x` this is `⌊x + 1/2⌋`. -/
def cround (x : ℚ) : ℤ := if 0 ≤ x then ⌊x + 1 / 2⌋ else -⌊-x + 1 / 2⌋

/-- Record type `FrameData` (LuminOrderApp.cpp lines 75–82): one source frame index
together with its mean brightness. -/
structure FrameData where
  mIndex : ℕ
  mBrightness : ℚ
deriving DecidableEq

/-- The rounded brightness bucket `round(x / ROUND_TO) * ROUND_TO` computed by
`FrameBrightnessSort` for each of its two arguments (LuminOrderApp.cpp lines
90–91), factored out as a function. -/
def roundBucket (x : ℚ) : ℚ := (cround (x / ROUND_TO) : ℚ) * ROUND_TO

/-- Comparator `FrameBrightnessSort` (LuminOrderApp.cpp lines 88–97): the strict
comparator handed to `std::sort`.  Returns `true` iff `a` must precede `b`:
first by rounded brightness bucket, ties broken by ascending source index. -/
def FrameBrightnessSort (a b : FrameData) : Bool :=
  if roundBucket a.mBrightness ≠ roundBucket b.mBrightness then
    decide (roundBucket a.mBrightness < roundBucket b.mBrightness)
  else
    decide (a.mIndex < b.mIndex)

/-- The non-strict order induced by the comparator: `a` may stay before `b`
exactly when the comparator does not demand the opposite order
(`!FrameBrightnessSort(b, a)`), i.e. the sortedness relation guaranteed by
`std::sort`. -/
abbrev FBSle (a b : FrameData) : Prop := FrameBrightnessSort b a = false

/-- One pixel of a decoded frame surface: 8-bit red, green, blue and alpha
channel values (the analyzer never reads `alpha`). -/
structure Pixel where
  red : ℕ
  green : ℕ
  blue : ℕ
  alpha : ℕ
deriving DecidableEq

/-- A decoded frame surface (`Surface8u`): dimensions plus the pixels visited
by `Surface::Iter` in line/pixel order.  For a well-formed surface
`pixels.length = width * height`. -/
structure Surface where
  width : ℕ
  height : ℕ
  pixels : List Pixel
deriving DecidableEq

/-- The brightness reduction inside `processNextFrame` (LuminOrderApp.cpp
lines 267–279): accumulate `(r + g + b) / (3 · 255)` over every pixel of the
surface, then divide by `width * height`.  There is no guard against a
zero-area surface; the division is performed unconditionally (`ℚ` renders the
ill-defined `0/0` of the C++ doubles as `0`). -/
def frameBrightness (s : Surface) : ℚ :=
  (s.pixels.foldl
      (fun acc p => acc + ((p.red : ℚ) + (p.green : ℚ) + (p.blue : ℚ)) / (3 * 255)) 0)
    / ((s.width : ℚ) * (s.height : ℚ))

/-- The mutable application state touched by pass 1: `mFrameIndex` and the
`mFrameData` vector (LuminOrderApp.cpp lines 123–124). -/
structure AppState where
  mFrameIndex : ℕ
  mFrameData : List FrameData
deriving DecidableEq

/-- Member function `processNextFrame()` (LuminOrderApp.cpp lines 262–294): compute the
brightness of the current surface, append `FrameData(mFrameIndex, brightness)`
to the table, advance `mFrameIndex`, and return the brightness. -/
def processNextFrame (st : AppState) (surface : Surface) : AppState × ℚ :=
  let brightness := frameBrightness surface
  (⟨st.mFrameIndex + 1, st.mFrameData ++ [⟨st.mFrameIndex, brightness⟩]⟩, brightness)

/-- The pass-1 loop body of `processAllFrames` (LuminOrderApp.cpp lines
242–255), iterated `n` times: each iteration decodes the current frame
(`mMovie.getSurface()`, abstracted by `decode`) and runs `processNextFrame`.
A decode failure (`none`) models the QuickTime exception: the loop aborts and
the state at the failure point (partial table included) is carried into the
`catch` handler. -/
def processFrames (decode : ℕ → Option Surface) : ℕ → AppState → Except AppState AppState
  | 0, st => Except.ok st
  | n + 1, st =>
    match decode st.mFrameIndex with
    | none => Except.error st
    | some s => processFrames decode n (processNextFrame st s).1

/-- Member function `processAllFrames()` (LuminOrderApp.cpp lines 234–256): seek to the start
frame, set `mFrameIndex`, and run the loop `numFrames - startFrame` times
(`ℕ` truncated subtraction matches the C loop, which runs zero times when the
`int` bound is non-positive). -/
def processAllFrames (decode : ℕ → Option Surface) (startFrame numFrames : ℕ) :
    Except AppState AppState :=
  processFrames decode (numFrames - startFrame) ⟨startFrame, []⟩

/-- Formatting via `fprintf(fd, "%d,%f\n", ...)` (LuminOrderApp.cpp line 342) prints the
brightness with 6 fractional digits, rounding to the nearest decimal; modelled
as quantization to the `10⁻⁶` grid. -/
def round6 (x : ℚ) : ℚ := (cround (x * 1000000) : ℚ) / 1000000

/-- The offsets-file contents produced by the write loop of `sortMovie`
(LuminOrderApp.cpp lines 333–343): one `(mIndex, mBrightness)` line per record
in current table order, brightness quantized to the `%f` format's 6 fractional
digits. -/
def writeOffsets (table : List FrameData) : List (ℕ × ℚ) :=
  table.map fun f => (f.mIndex, round6 f.mBrightness)

/-- Round-to-nearest-even on rationals: the integer nearest to `x`, halfway
cases to the even neighbour (the IEEE-754 default rounding used by `strtof`
when `fscanf` converts decimal text). -/
def rne (x : ℚ) : ℤ :=
  if x - ⌊x⌋ < 1 / 2 then ⌊x⌋
  else if (1 : ℚ) / 2 < x - ⌊x⌋ then ⌊x⌋ + 1
  else if Even ⌊x⌋ then ⌊x⌋ else ⌊x⌋ + 1

/-- Conversion of a decimal value to the nearest IEEE-754 binary32 (`float`)
value, as performed by `fscanf("%f")`: round `x` to the quantum `2^(e-23)` of
its binade (`2^e ≤ |x| < 2^(e+1)`), clamped below to the subnormal quantum
`2^-149`, ties to even.  Overflow to infinity (`|x| ≥ 2^128`) is not
modelled; the sidecar's brightness values lie in `[0, 1]`. -/
def floatParse (x : ℚ) : ℚ :=
  if x = 0 then 0
  else if x < 0 then
    -((rne (-x / 2 ^ max (Int.log 2 (-x) - 23) (-149)) : ℚ) *
      2 ^ max (Int.log 2 (-x) - 23) (-149))
  else
    (rne (x / 2 ^ max (Int.log 2 x - 23) (-149)) : ℚ) *
      2 ^ max (Int.log 2 x - 23) (-149)

/-- Member function `loadBrightnessFile()` (LuminOrderApp.cpp lines 300–315): parse the lines
of `offsets.txt` back into `FrameData` records via `fscanf("%d,%f")`.  The
`%f` conversion stores into a single-precision `float`, so the decimal text
is rounded to the nearest binary32 value (`floatParse`) before the record is
built; the subsequent widening to the `double` field is exact. -/
def loadBrightnessFile (lines : List (ℕ × ℚ)) : List FrameData :=
  lines.map fun p => ⟨p.1, floatParse p.2⟩

/-- Member function `sortMovie()` (LuminOrderApp.cpp lines 322–345): sort `mFrameData` with
`std::sort` under `FrameBrightnessSort`, then write the offsets file.  Returns
the sorted table and the offsets-file contents.  `std::sort` is modelled by
insertion sort under the induced non-strict order `FBSle`; the claim-10
theorem shows that on tables with pairwise-distinct indices every
comparator-sorted permutation is equal, so the choice of algorithm is
immaterial. -/
def sortMovie (mFrameData : List FrameData) : List FrameData × List (ℕ × ℚ) :=
  let sorted := List.insertionSort FBSle mFrameData
  (sorted, writeOffsets sorted)

/-- Member function `saveMovie()` (LuminOrderApp.cpp lines 351–397): if the table has been
sorted, seek to each record's source index in table order and append that
frame to the `MovieWriter` sink.  Modelled as the list of source indices of
the appended frames (each appended frame is the decoded surface at that
index). -/
def saveMovie (mSorted : Bool) (mFrameData : List FrameData) : List ℕ :=
  if mSorted then mFrameData.map fun f => f.mIndex else []

/-- Observable outcome of one `loadMovieFile` job: the final `mFrameData`
table, the `offsets.txt` contents (`none` = file never written), the output
movie (`none` = never written), and whether the job ended in the `catch`
handler. -/
structure RunResult where
  mFrameData : List FrameData
  offsetsFile : Option (List (ℕ × ℚ))
  outputMovie : Option (List ℕ)
  failed : Bool
deriving DecidableEq

/-- Member function `loadMovieFile()` (LuminOrderApp.cpp lines 175–201): run
`processAllFrames`, `sortMovie`, `saveMovie` inside a `try` block.  On an
adapter failure the `catch` handler only resets the movie: neither file is
written, but the partially built `mFrameData` member is left in place. -/
def loadMovieFile (decode : ℕ → Option Surface) (startFrame numFrames : ℕ) : RunResult :=
  match processAllFrames decode startFrame numFrames with
  | Except.error st => ⟨st.mFrameData, none, none, true⟩
  | Except.ok st =>
    let res := sortMovie st.mFrameData
    ⟨res.1, some res.2, some (saveMovie true res.1), false⟩

/-- Function `predict()` (LuminOrderApp.cpp lines 65–70):
`ratio = index/total; return (elapsed/ratio) * (1 - ratio)` on C doubles.
Embedded over `WithTop ℚ`, with the IEEE-754 behaviour of the division made
explicit: `x / 0 = +∞` (`⊤`) for `x ≠ 0`; the indeterminate `0 / 0` (a NaN in
the C++ doubles) is rendered as `0` — no claim below identifies NaN with `0`,
only that neither is `+∞`. -/
def predict (elapsed : ℚ) (index total : ℕ) : WithTop ℚ :=
  let ratio : ℚ := (index : ℚ) / (total : ℚ)
  if ratio = 0 then (if elapsed = 0 then (0 : WithTop ℚ) else ⊤)
  else (((elapsed / ratio) * (1 - ratio) : ℚ) : WithTop ℚ)

/-- Modelled from the spec (§4.3): the comparator's bucket
`q = round(brightness / ε) · ε` with `ε = 0.01`, written with Mathlib's
`round` (round half up, which agrees with C `round()` on the nonnegative
brightnesses of the data model). -/
def specBucket (x : ℚ) : ℚ := (round (x / (1 / 100)) : ℚ) * (1 / 100)

/-- Modelled from the spec (§4.2): `mean over all pixels of (R+G+B)/(3·255)`. -/
def specMeanBrightness (s : Surface) : ℚ :=
  ((s.pixels.map fun p => ((p.red : ℚ) + (p.green : ℚ) + (p.blue : ℚ)) / (3 * 255)).sum)
    / (s.pixels.length : ℚ)

/-! ## Basic facts about the comparator -/

lemma ROUND_TO_eq : ROUND_TO = 1 / 100 := by norm_num [ROUND_TO]

lemma cround_eq_round {x : ℚ} (h : 0 ≤ x) : cround x = round x := by
  rw [cround, if_pos h, round_eq]

lemma roundBucket_eq_specBucket {x : ℚ} (h : 0 ≤ x) : roundBucket x = specBucket x := by
  rw [roundBucket, specBucket, ROUND_TO_eq, cround_eq_round]
  exact div_nonneg h (by norm_num)

/-- The comparator returns `true` exactly on the strict lexicographic order
on (bucket, index). -/
lemma fbs_iff (a b : FrameData) :
    FrameBrightnessSort a b = true ↔
      roundBucket a.mBrightness < roundBucket b.mBrightness ∨
        (roundBucket a.mBrightness = roundBucket b.mBrightness ∧ a.mIndex < b.mIndex) := by
  by_cases h : roundBucket a.mBrightness = roundBucket b.mBrightness
  · simp [FrameBrightnessSort, h]
  · simp [FrameBrightnessSort, h]

/-- The induced non-strict order is the non-strict lexicographic order on
(bucket, index). -/
lemma fbsle_iff (a b : FrameData) :
    FBSle a b ↔
      roundBucket a.mBrightness < roundBucket b.mBrightness ∨
        (roundBucket a.mBrightness = roundBucket b.mBrightness ∧ a.mIndex ≤ b.mIndex) := by
  rw [FBSle, ← Bool.not_eq_true, fbs_iff]
  push_neg
  constructor
  · rintro ⟨h1, h2⟩
    rcases lt_or_eq_of_le h1 with hl | he
    · exact Or.inl hl
    · exact Or.inr ⟨he, h2 he.symm⟩
  · rintro (hl | ⟨he, hi⟩)
    · exact ⟨le_of_lt hl, fun hba => absurd hba.symm (ne_of_lt hl)⟩
    · exact ⟨le_of_eq he, fun _ => hi⟩

instance : IsTrans FrameData FBSle := ⟨by
  intro a b c hab hbc
  rw [fbsle_iff] at hab hbc ⊢
  rcases hab with h1 | ⟨h1, h1'⟩ <;> rcases hbc with h2 | ⟨h2, h2'⟩
  · exact Or.inl (lt_trans h1 h2)
  · exact Or.inl (lt_of_lt_of_le h1 (le_of_eq h2))
  · exact Or.inl (lt_of_le_of_lt (le_of_eq h1) h2)
  · exact Or.inr ⟨h1.trans h2, le_trans h1' h2'⟩⟩

instance : IsTotal FrameData FBSle := ⟨by
  intro a b
  rw [fbsle_iff, fbsle_iff]
  rcases lt_trichotomy (roundBucket a.mBrightness) (roundBucket b.mBrightness) with h | h | h
  · exact Or.inl (Or.inl h)
  · rcases Nat.le_total a.mIndex b.mIndex with hi | hi
    · exact Or.inl (Or.inr ⟨h, hi⟩)
    · exact Or.inr (Or.inr ⟨h.symm, hi⟩)
  · exact Or.inr (Or.inl h)⟩

/-- Mutually non-strictly-ordered records carry the same source index. -/
lemma fbsle_antisymm_index {a b : FrameData} (h1 : FBSle a b) (h2 : FBSle b a) :
    a.mIndex = b.mIndex := by
  rw [fbsle_iff] at h1 h2
  rcases h1 with h1 | ⟨h1, h1'⟩ <;> rcases h2 with h2 | ⟨h2, h2'⟩
  · exact absurd h2 (asymm h1)
  · exact absurd h2.symm (ne_of_lt h1)
  · exact absurd h1.symm (ne_of_lt h2)
  · exact le_antisymm h1' h2'

/-- A record non-strictly before another one in the same bucket has the
smaller-or-equal index. -/
lemma fbsle_index_le {a b : FrameData} (h : FBSle a b)
    (hb : roundBucket a.mBrightness = roundBucket b.mBrightness) :
    a.mIndex ≤ b.mIndex := by
  rw [fbsle_iff] at h
  rcases h with h | ⟨_, h⟩
  · exact absurd hb (ne_of_lt h)
  · exact h

/-- The comparator only looks at the rounded bucket and the source index. -/
lemma fbs_congr {a b a' b' : FrameData}
    (ha : roundBucket a'.mBrightness = roundBucket a.mBrightness)
    (hia : a'.mIndex = a.mIndex)
    (hb : roundBucket b'.mBrightness = roundBucket b.mBrightness)
    (hib : b'.mIndex = b.mIndex) :
    FrameBrightnessSort a' b' = FrameBrightnessSort a b := by
  unfold FrameBrightnessSort
  rw [ha, hb, hia, hib]

/-- Any two comparator-sorted permutations of a table with pairwise-distinct
source indices are equal: the sorted table is unique. -/
lemma sorted_perm_nodup_eq : ∀ {l₁ l₂ : List FrameData}, l₁.Perm l₂ →
    (l₁.map FrameData.mIndex).Nodup →
    l₁.Pairwise FBSle → l₂.Pairwise FBSle → l₁ = l₂ := by
  intro l₁
  induction l₁ with
  | nil =>
    intro l₂ hp _ _ _
    exact hp.symm.eq_nil.symm
  | cons a t ih =>
    intro l₂ hp hnd h₁ h₂
    cases l₂ with
    | nil => exact absurd hp.eq_nil (by simp)
    | cons b t₂ =>
      have hmem_a : a ∈ b :: t₂ := hp.subset (List.mem_cons_self a t)
      have hmem_b : b ∈ a :: t := hp.symm.subset (List.mem_cons_self b t₂)
      have hab : a = b := by
        by_contra hne
        have hbt : b ∈ t := by
          rcases List.mem_cons.1 hmem_b with h | h
          · exact absurd h.symm hne
          · exact h
        have hat : a ∈ t₂ := by
          rcases List.mem_cons.1 hmem_a with h | h
          · exact absurd h hne
          · exact h
        have le1 : FBSle a b := (List.pairwise_cons.1 h₁).1 b hbt
        have le2 : FBSle b a := (List.pairwise_cons.1 h₂).1 a hat
        have hidx : a.mIndex = b.mIndex := fbsle_antisymm_index le1 le2
        have hnotin : a.mIndex ∉ t.map FrameData.mIndex :=
          (List.nodup_cons.1 (by simpa using hnd)).1
        exact hnotin (List.mem_map.2 ⟨b, hbt, hidx.symm⟩)
      subst hab
      have ht : t = t₂ :=
        ih hp.cons_inv ((List.nodup_cons.1 (by simpa using hnd)).2)
          (List.pairwise_cons.1 h₁).2 (List.pairwise_cons.1 h₂).2
      rw [ht]

/-! ## Pass 1: the analyze loop -/

/-- A successful run of the pass-1 loop appends records for exactly the `n`
consecutive frame indices starting at the current `mFrameIndex`. -/
lemma processFrames_ok_spec (decode : ℕ → Option Surface) : ∀ (n : ℕ) (st st' : AppState),
    processFrames decode n st = Except.ok st' →
      st'.mFrameData.map FrameData.mIndex =
        st.mFrameData.map FrameData.mIndex ++ List.range' st.mFrameIndex n := by
  intro n
  induction n with
  | zero =>
    intro st st' h
    simp only [processFrames, Except.ok.injEq] at h
    subst h
    simp
  | succ n ih =>
    intro st st' h
    rw [processFrames] at h
    cases hd : decode st.mFrameIndex with
    | none => rw [hd] at h; cases h
    | some s =>
      rw [hd] at h
      have h1 := ih _ _ h
      rw [h1]
      simp [processNextFrame, List.range'_succ]

lemma processAllFrames_ok_spec {decode : ℕ → Option Surface} {startFrame numFrames : ℕ}
    {st : AppState} (h : processAllFrames decode startFrame numFrames = Except.ok st) :
    st.mFrameData.map FrameData.mIndex =
      List.range' startFrame (numFrames - startFrame) := by
  simpa using processFrames_ok_spec decode _ _ _ h

/-- On a pass-1 failure, `loadMovieFile` lands in the `catch` handler: no file
is written, the job is failed, and the partial table is retained. -/
lemma loadMovieFile_error_spec {decode : ℕ → Option Surface} {startFrame numFrames : ℕ}
    {st : AppState} (h : processAllFrames decode startFrame numFrames = Except.error st) :
    loadMovieFile decode startFrame numFrames = ⟨st.mFrameData, none, none, true⟩ := by
  unfold loadMovieFile
  rw [h]

/-! ## Brightness accumulation -/

lemma brightness_foldl (l : List Pixel) (c : ℚ) :
    l.foldl (fun acc p => acc + ((p.red : ℚ) + (p.green : ℚ) + (p.blue : ℚ)) / (3 * 255)) c
      = c + ((l.map fun p => ((p.red : ℚ) + (p.green : ℚ) + (p.blue : ℚ)) / (3 * 255)).sum) := by
  induction l generalizing c with
  | nil => simp
  | cons p t ih =>
    simp only [List.foldl_cons, List.map_cons, List.sum_cons, ih]
    ring

lemma brightness_sum_nonneg (l : List Pixel) :
    0 ≤ ((l.map fun p => ((p.red : ℚ) + (p.green : ℚ) + (p.blue : ℚ)) / (3 * 255)).sum) := by
  induction l with
  | nil => simp
  | cons p t ih =>
    simp only [List.map_cons, List.sum_cons]
    have hp : (0 : ℚ) ≤ ((p.red : ℚ) + (p.green : ℚ) + (p.blue : ℚ)) / (3 * 255) := by
      positivity
    linarith

lemma brightness_sum_le_length (l : List Pixel)
    (h : ∀ p ∈ l, p.red ≤ 255 ∧ p.green ≤ 255 ∧ p.blue ≤ 255) :
    ((l.map fun p => ((p.red : ℚ) + (p.green : ℚ) + (p.blue : ℚ)) / (3 * 255)).sum)
      ≤ (l.length : ℚ) := by
  induction l with
  | nil => simp
  | cons p t ih =>
    simp only [List.map_cons, List.sum_cons, List.length_cons]
    have hp := h p (List.mem_cons_self p t)
    have h1 : ((p.red : ℚ) + (p.green : ℚ) + (p.blue : ℚ)) / (3 * 255) ≤ 1 := by
      rw [div_le_one (by norm_num)]
      have hr : (p.red : ℚ) ≤ 255 := by exact_mod_cast hp.1
      have hg : (p.green : ℚ) ≤ 255 := by exact_mod_cast hp.2.1
      have hb : (p.blue : ℚ) ≤ 255 := by exact_mod_cast hp.2.2
      linarith
    have h2 := ih fun q hq => h q (List.mem_cons_of_mem p hq)
    push_cast
    linarith

/-! ## The sort -/

lemma sortMovie_fst (l : List FrameData) :
    (sortMovie l).1 = List.insertionSort FBSle l := rfl

lemma sortMovie_snd (l : List FrameData) :
    (sortMovie l).2 = writeOffsets ((sortMovie l).1) := rfl

lemma sortMovie_sorted (l : List FrameData) : ((sortMovie l).1).Pairwise FBSle :=
  List.sorted_insertionSort FBSle l

lemma sortMovie_perm (l : List FrameData) : ((sortMovie l).1).Perm l :=
  List.perm_insertionSort FBSle l

lemma sortMovie_nodup_index {l : List FrameData} (h : (l.map FrameData.mIndex).Nodup) :
    (((sortMovie l).1).map FrameData.mIndex).Nodup :=
  ((sortMovie_perm l).map FrameData.mIndex).nodup_iff.2 h

lemma nodup_index_pairwise {l : List FrameData} (h : (l.map FrameData.mIndex).Nodup) :
    l.Pairwise fun a b => a.mIndex ≠ b.mIndex := by
  rw [List.Nodup, List.pairwise_map] at h
  exact h

/-! ## Evaluating the binary32 parse -/

/-- Evaluation rule for `floatParse` on a positive normal-range value once its
binade is exhibited. -/
lemma floatParse_eval (x : ℚ) (e : ℤ) (h1 : (2 : ℚ) ^ e ≤ x) (h2 : x < (2 : ℚ) ^ (e + 1))
    (he : -126 ≤ e) :
    floatParse x = (rne (x / 2 ^ (e - 23)) : ℚ) * 2 ^ (e - 23) := by
  have h2pos : (0 : ℚ) < (2 : ℚ) ^ e := by positivity
  have hx : 0 < x := lt_of_lt_of_le h2pos h1
  have ha : e ≤ Int.log 2 x := by
    rw [← Int.zpow_le_iff_le_log one_lt_two hx]
    exact_mod_cast h1
  have hb : Int.log 2 x < e + 1 := by
    rw [← Int.lt_zpow_iff_log_lt one_lt_two hx]
    exact_mod_cast h2
  have hlog : Int.log 2 x = e := by omega
  rw [floatParse, if_neg hx.ne', if_neg (not_lt.2 hx.le), hlog, max_eq_left (by omega)]

/-- Dyadic `0.25` is exactly representable in binary32. -/
lemma floatParse_one_quarter : floatParse (1 / 4) = 1 / 4 := by
  rw [floatParse_eval (1 / 4) (-2) (by norm_num) (by norm_num) (by norm_num)]
  norm_num [rne, Int.floor_eq_iff]

/-- Dyadic `0.75` is exactly representable in binary32. -/
lemma floatParse_three_quarters : floatParse (3 / 4) = 3 / 4 := by
  rw [floatParse_eval (3 / 4) (-1) (by norm_num) (by norm_num) (by norm_num)]
  norm_num [rne, Int.floor_eq_iff]

/-- Parsing the sidecar text `0.025000` yields
`float(0.025) = 13421773 · 2⁻²⁹ ≈ 0.0250000004 > 0.025`. -/
lemma floatParse_025 : floatParse (1 / 40) = 13421773 / 536870912 := by
  rw [floatParse_eval (1 / 40) (-6) (by norm_num) (by norm_num) (by norm_num)]
  norm_num [rne, Int.floor_eq_iff]

/-- Parsing the sidecar text `0.026000` yields
`float(0.026) = 13958644 · 2⁻²⁹ ≈ 0.0260000005`. -/
lemma floatParse_026 : floatParse (13 / 500) = 3489661 / 134217728 := by
  rw [floatParse_eval (13 / 500) (-6) (by norm_num) (by norm_num) (by norm_num)]
  norm_num [rne, Int.floor_eq_iff]

/-! ## Concrete adapters and tables used to instantiate the theorems -/

/-- A 2-frame source whose frames are single white pixels. -/
def allWhite : ℕ → Option Surface := fun _ => some ⟨1, 1, [⟨255, 255, 255, 255⟩]⟩

/-! ## The claims -/

/-- Claim C2. The comparator orders `a` before `b` iff
`round(a.brightness/ε)·ε < round(b.brightness/ε)·ε` with `ε = 0.01`, or the two
rounded values are equal and `a.source_index < b.source_index`; and nothing
besides the rounded bucket and the source index influences the result.
(The brightness nonnegativity hypotheses come from the data model's
`brightness ∈ [0,1]`; they let the spec's generic round-half-up `round` stand
in for C `round()`, the two agreeing on nonnegative arguments.) -/
theorem claim2_comparator_bucket_and_index :
    (∀ a b : FrameData, 0 ≤ a.mBrightness → 0 ≤ b.mBrightness →
      (FrameBrightnessSort a b = true ↔
        specBucket a.mBrightness < specBucket b.mBrightness ∨
          (specBucket a.mBrightness = specBucket b.mBrightness ∧ a.mIndex < b.mIndex))) ∧
    (∀ a b a' b' : FrameData,
      roundBucket a'.mBrightness = roundBucket a.mBrightness → a'.mIndex = a.mIndex →
      roundBucket b'.mBrightness = roundBucket b.mBrightness → b'.mIndex = b.mIndex →
      FrameBrightnessSort a' b' = FrameBrightnessSort a b) := by
  constructor
  · intro a b ha hb
    rw [fbs_iff, roundBucket_eq_specBucket ha, roundBucket_eq_specBucket hb]
  · intro a b a' b' h1 h2 h3 h4
    exact fbs_congr h1 h2 h3 h4

/-- Witness for C2 at the records `(0, 1/2)` and `(1, 1/4)`. -/
theorem claim2_witness :
    (0 : ℚ) ≤ (FrameData.mk 0 (1 / 2)).mBrightness ∧
    (0 : ℚ) ≤ (FrameData.mk 1 (1 / 4)).mBrightness ∧
    (FrameBrightnessSort ⟨0, 1 / 2⟩ ⟨1, 1 / 4⟩ = true ↔
      specBucket (FrameData.mk 0 (1 / 2)).mBrightness <
          specBucket (FrameData.mk 1 (1 / 4)).mBrightness ∨
        (specBucket (FrameData.mk 0 (1 / 2)).mBrightness =
            specBucket (FrameData.mk 1 (1 / 4)).mBrightness ∧
          (FrameData.mk 0 (1 / 2)).mIndex < (FrameData.mk 1 (1 / 4)).mIndex)) :=
  ⟨by norm_num, by norm_num,
    claim2_comparator_bucket_and_index.1 ⟨0, 1 / 2⟩ ⟨1, 1 / 4⟩ (by norm_num) (by norm_num)⟩

/-- Claim C10. `FrameBrightnessSort` is irreflexive, asymmetric and transitive,
total on records with distinct source indices, and consequently the sorted
table of a distinct-index multiset is unique, independent of the sorting
algorithm. -/
theorem claim10_strict_total_order :
    (∀ a : FrameData, FrameBrightnessSort a a = false) ∧
    (∀ a b : FrameData, FrameBrightnessSort a b = true → FrameBrightnessSort b a = false) ∧
    (∀ a b c : FrameData, FrameBrightnessSort a b = true → FrameBrightnessSort b c = true →
      FrameBrightnessSort a c = true) ∧
    (∀ a b : FrameData, a.mIndex ≠ b.mIndex →
      (FrameBrightnessSort a b = true ↔ FrameBrightnessSort b a = false)) ∧
    (∀ l₁ l₂ : List FrameData, l₁.Perm l₂ → (l₁.map FrameData.mIndex).Nodup →
      l₁.Pairwise FBSle → l₂.Pairwise FBSle → l₁ = l₂) := by
  have hasymm : ∀ a b : FrameData,
      FrameBrightnessSort a b = true → FrameBrightnessSort b a = false := by
    intro a b hab
    rw [Bool.eq_false_iff]
    intro hba
    rw [fbs_iff] at hab hba
    rcases hab with h1 | ⟨h1, h1'⟩ <;> rcases hba with h2 | ⟨h2, h2'⟩
    · exact absurd h2 (asymm h1)
    · exact absurd h2.symm (ne_of_lt h1)
    · exact absurd h1.symm (ne_of_lt h2)
    · exact Nat.lt_irrefl _ (Nat.lt_trans h1' h2')
  refine ⟨?_, hasymm, ?_, ?_, ?_⟩
  · intro a
    rw [Bool.eq_false_iff]
    intro h
    rw [fbs_iff] at h
    rcases h with h | ⟨_, h⟩
    · exact lt_irrefl _ h
    · exact Nat.lt_irrefl _ h
  · intro a b c hab hbc
    rw [fbs_iff] at hab hbc ⊢
    rcases hab with h1 | ⟨h1, h1'⟩ <;> rcases hbc with h2 | ⟨h2, h2'⟩
    · exact Or.inl (lt_trans h1 h2)
    · exact Or.inl (lt_of_lt_of_le h1 (le_of_eq h2))
    · exact Or.inl (lt_of_le_of_lt (le_of_eq h1) h2)
    · exact Or.inr ⟨h1.trans h2, Nat.lt_trans h1' h2'⟩
  · intro a b hne
    constructor
    · exact hasymm a b
    · intro h
      have hle : FBSle a b := h
      rw [fbsle_iff] at hle
      rw [fbs_iff]
      rcases hle with h1 | ⟨h1, h1'⟩
      · exact Or.inl h1
      · exact Or.inr ⟨h1, lt_of_le_of_ne h1' hne⟩
  · intro l₁ l₂ hp hnd h₁ h₂
    exact sorted_perm_nodup_eq hp hnd h₁ h₂

/-- Witness for C10: totality at two distinct-index records, and uniqueness at
a concrete one-record table. -/
theorem claim10_witness :
    (FrameBrightnessSort ⟨0, 1 / 2⟩ ⟨1, 1 / 2⟩ = true ↔
      FrameBrightnessSort ⟨1, 1 / 2⟩ ⟨0, 1 / 2⟩ = false) ∧
    ([⟨3, 1 / 4⟩] : List FrameData) = [⟨3, 1 / 4⟩] :=
  ⟨claim10_strict_total_order.2.2.2.1 ⟨0, 1 / 2⟩ ⟨1, 1 / 2⟩ (by norm_num),
    claim10_strict_total_order.2.2.2.2 [⟨3, 1 / 4⟩] [⟨3, 1 / 4⟩] (List.Perm.refl _)
      (by norm_num) (by simp) (by simp)⟩

/-- Claim C1. After `sortMovie` on the pass-1 table: the table holds the same
multiset of records; every adjacent pair `(a, b)` satisfies the comparator's
non-strict order (`FrameBrightnessSort(b, a)` is `false`); and within equal
rounded buckets, adjacent source indices are strictly ascending. -/
theorem claim1_sort_multiset_order_stability
    (decode : ℕ → Option Surface) (startFrame numFrames : ℕ) (st : AppState)
    (h : processAllFrames decode startFrame numFrames = Except.ok st) :
    ((sortMovie st.mFrameData).1).Perm st.mFrameData ∧
    List.Chain' (fun a b => FrameBrightnessSort b a = false) (sortMovie st.mFrameData).1 ∧
    List.Chain' (fun a b => roundBucket a.mBrightness = roundBucket b.mBrightness →
      a.mIndex < b.mIndex) (sortMovie st.mFrameData).1 := by
  have hmap := processAllFrames_ok_spec h
  have hnd : (st.mFrameData.map FrameData.mIndex).Nodup := by
    rw [hmap]; exact List.nodup_range' _ _
  refine ⟨sortMovie_perm _, (sortMovie_sorted _).chain', ?_⟩
  have hpw := (sortMovie_sorted st.mFrameData).and
    (nodup_index_pairwise (sortMovie_nodup_index hnd))
  refine (hpw.imp ?_).chain'
  intro a b hab hbk
  exact lt_of_le_of_ne (fbsle_index_le hab.1 hbk) hab.2

/-- Witness for C1: the 2-frame all-white source. -/
theorem claim1_witness :
    ((sortMovie (AppState.mk 2 [⟨0, 1⟩, ⟨1, 1⟩]).mFrameData).1).Perm
        (AppState.mk 2 [⟨0, 1⟩, ⟨1, 1⟩]).mFrameData ∧
    List.Chain' (fun a b => FrameBrightnessSort b a = false)
      (sortMovie (AppState.mk 2 [⟨0, 1⟩, ⟨1, 1⟩]).mFrameData).1 ∧
    List.Chain' (fun a b => roundBucket a.mBrightness = roundBucket b.mBrightness →
      a.mIndex < b.mIndex) (sortMovie (AppState.mk 2 [⟨0, 1⟩, ⟨1, 1⟩]).mFrameData).1 :=
  claim1_sort_multiset_order_stability allWhite 0 2 ⟨2, [⟨0, 1⟩, ⟨1, 1⟩]⟩
    (by norm_num [processAllFrames, processFrames, processNextFrame, frameBrightness, allWhite])

/-- Claim C5. A completed pass 1 leaves a table of length
`numFrames - startFrame` whose source indices are exactly
`startFrame, …, numFrames - 1` in that order; the record at position `k` has
index `startFrame + k`. -/
theorem claim5_pass1_table_shape
    (decode : ℕ → Option Surface) (startFrame numFrames : ℕ) (st : AppState)
    (h : processAllFrames decode startFrame numFrames = Except.ok st) :
    st.mFrameData.length = numFrames - startFrame ∧
    st.mFrameData.map FrameData.mIndex = List.range' startFrame (numFrames - startFrame) ∧
    ∀ k (hk : k < st.mFrameData.length),
      (st.mFrameData.get ⟨k, hk⟩).mIndex = startFrame + k := by
  have hmap := processAllFrames_ok_spec h
  have hlen : st.mFrameData.length = numFrames - startFrame := by
    have := congrArg List.length hmap
    simpa using this
  refine ⟨hlen, hmap, ?_⟩
  intro k hk
  have hk' : k < (st.mFrameData.map FrameData.mIndex).length := by simpa using hk
  have h1 : (st.mFrameData.map FrameData.mIndex).get ⟨k, hk'⟩ = startFrame + k := by
    rw [List.get_eq_getElem]
    have hk'' : k < (List.range' startFrame (numFrames - startFrame)).length := by
      simpa [hmap] using hk'
    simp only [hmap]
    simp [List.getElem_range']
  have h2 : (st.mFrameData.map FrameData.mIndex).get ⟨k, hk'⟩ =
      (st.mFrameData.get ⟨k, hk⟩).mIndex := by
    simp [List.get_eq_getElem]
  exact h2.symm.trans h1

/-- Witness for C5: the 2-frame all-white source. -/
theorem claim5_witness :
    (AppState.mk 2 [⟨0, 1⟩, ⟨1, 1⟩]).mFrameData.length = 2 - 0 ∧
    (AppState.mk 2 [⟨0, 1⟩, ⟨1, 1⟩]).mFrameData.map FrameData.mIndex =
      List.range' 0 (2 - 0) ∧
    ∀ k (hk : k < (AppState.mk 2 [⟨0, 1⟩, ⟨1, 1⟩]).mFrameData.length),
      ((AppState.mk 2 [⟨0, 1⟩, ⟨1, 1⟩]).mFrameData.get ⟨k, hk⟩).mIndex = 0 + k :=
  claim5_pass1_table_shape allWhite 0 2 ⟨2, [⟨0, 1⟩, ⟨1, 1⟩]⟩
    (by norm_num [processAllFrames, processFrames, processNextFrame, frameBrightness, allWhite])

/-- Claim C3. Whenever a run writes the output movie, it contains exactly
`numFrames - startFrame` frames, and the source indices appended to the sink
are a permutation of `{startFrame, …, numFrames - 1}`: no duplicates, no
omissions. -/
theorem claim3_output_completeness_permutation
    (decode : ℕ → Option Surface) (startFrame numFrames : ℕ) (out : List ℕ)
    (h : (loadMovieFile decode startFrame numFrames).outputMovie = some out) :
    out.length = numFrames - startFrame ∧
    out.Perm (List.range' startFrame (numFrames - startFrame)) ∧ out.Nodup := by
  unfold loadMovieFile at h
  cases hp : processAllFrames decode startFrame numFrames with
  | error st => rw [hp] at h; cases h
  | ok st =>
    rw [hp] at h
    simp only [Option.some.injEq] at h
    have hmap := processAllFrames_ok_spec hp
    have hout : out = (sortMovie st.mFrameData).1.map FrameData.mIndex := by
      rw [← h]; simp [saveMovie]
    have hperm : out.Perm (List.range' startFrame (numFrames - startFrame)) := by
      rw [hout, ← hmap]
      exact (sortMovie_perm st.mFrameData).map FrameData.mIndex
    refine ⟨?_, hperm, hperm.nodup_iff.mpr (List.nodup_range' _ _)⟩
    rw [hperm.length_eq]
    simp

/-- Witness for C3: the 2-frame all-white source writes frames `[0, 1]`. -/
theorem claim3_witness :
    ([0, 1] : List ℕ).length = 2 - 0 ∧
    ([0, 1] : List ℕ).Perm (List.range' 0 (2 - 0)) ∧ ([0, 1] : List ℕ).Nodup :=
  claim3_output_completeness_permutation allWhite 0 2 [0, 1]
    (by norm_num [loadMovieFile, processAllFrames, processFrames, processNextFrame,
      frameBrightness, allWhite, sortMovie, writeOffsets, round6, saveMovie,
      List.insertionSort, List.orderedInsert, FBSle, FrameBrightnessSort, roundBucket,
      cround, ROUND_TO, Int.floor_eq_iff])

/-- Claim C4. For a well-formed surface with at least one pixel, the computed
brightness is the mean over all pixels of `(R+G+B)/(3·255)`; alpha does not
participate; and the result lies in `[0, 1]`. -/
theorem claim4_brightness_mean_alpha_range (s : Surface)
    (hdim : s.pixels.length = s.width * s.height)
    (hpos : 0 < s.pixels.length)
    (hrange : ∀ p ∈ s.pixels, p.red ≤ 255 ∧ p.green ≤ 255 ∧ p.blue ≤ 255) :
    frameBrightness s = specMeanBrightness s ∧
    (∀ s' : Surface, s'.width = s.width → s'.height = s.height →
      s'.pixels.map (fun p => (p.red, p.green, p.blue)) =
        s.pixels.map (fun p => (p.red, p.green, p.blue)) →
      frameBrightness s' = frameBrightness s) ∧
    0 ≤ frameBrightness s ∧ frameBrightness s ≤ 1 := by
  have hwh : ((s.width : ℚ) * (s.height : ℚ)) = (s.pixels.length : ℚ) := by
    rw [hdim]; push_cast; ring
  have hfb : frameBrightness s =
      ((s.pixels.map fun p =>
        ((p.red : ℚ) + (p.green : ℚ) + (p.blue : ℚ)) / (3 * 255)).sum)
        / (s.pixels.length : ℚ) := by
    rw [frameBrightness, brightness_foldl, zero_add, hwh]
  have hlen : (0 : ℚ) < (s.pixels.length : ℚ) := by exact_mod_cast hpos
  refine ⟨hfb, ?_, ?_, ?_⟩
  · intro s' hw hh hrgb
    have hmaps : ∀ l : List Pixel,
        (l.map fun p => ((p.red : ℚ) + (p.green : ℚ) + (p.blue : ℚ)) / (3 * 255)) =
          ((l.map fun p => (p.red, p.green, p.blue)).map fun t =>
            ((t.1 : ℚ) + (t.2.1 : ℚ) + (t.2.2 : ℚ)) / (3 * 255)) := by
      intro l
      rw [List.map_map]
      rfl
    rw [frameBrightness, frameBrightness, brightness_foldl, brightness_foldl,
      hw, hh, hmaps s'.pixels, hmaps s.pixels, hrgb]
  · rw [hfb]
    exact div_nonneg (brightness_sum_nonneg s.pixels) (le_of_lt hlen)
  · rw [hfb, div_le_one hlen]
    exact brightness_sum_le_length s.pixels hrange

/-- Witness for C4 at a 1×1 surface holding one red pixel with nonzero
alpha. -/
theorem claim4_witness :
    frameBrightness ⟨1, 1, [⟨255, 0, 0, 7⟩]⟩ = specMeanBrightness ⟨1, 1, [⟨255, 0, 0, 7⟩]⟩ ∧
    (∀ s' : Surface, s'.width = (Surface.mk 1 1 [⟨255, 0, 0, 7⟩]).width →
      s'.height = (Surface.mk 1 1 [⟨255, 0, 0, 7⟩]).height →
      s'.pixels.map (fun p => (p.red, p.green, p.blue)) =
        (Surface.mk 1 1 [⟨255, 0, 0, 7⟩]).pixels.map (fun p => (p.red, p.green, p.blue)) →
      frameBrightness s' = frameBrightness ⟨1, 1, [⟨255, 0, 0, 7⟩]⟩) ∧
    0 ≤ frameBrightness ⟨1, 1, [⟨255, 0, 0, 7⟩]⟩ ∧
    frameBrightness ⟨1, 1, [⟨255, 0, 0, 7⟩]⟩ ≤ 1 :=
  claim4_brightness_mean_alpha_range ⟨1, 1, [⟨255, 0, 0, 7⟩]⟩ (by norm_num) (by norm_num)
    (by intro p hp; simp only [List.mem_singleton] at hp; subst hp; decide)

/-- A table whose persisted form changes a record's rounded bucket:
brightness `0.0249996` (bucket `0.02`) is written as `0.025000`, and
`fscanf`'s single-precision parse of that text is
`float(0.025) ≈ 0.0250000004`, which lands in bucket `0.03`. -/
def c6table : List FrameData := [⟨5, 249996 / 10000000⟩, ⟨2, 26 / 1000⟩]

/-- Claim C6, counterexample. Writing the sorted table `c6table` to the
sidecar and re-sorting the parsed contents flips the order of the two
records: the written order is `[5, 2]` (buckets `0.02 < 0.03`), but the
6-digit encoding of `0.0249996` is `0.025000`, whose single-precision parse
`float(0.025) ≈ 0.0250000004` lands in bucket `0.03`; both records then tie
and the index tie-break produces `[2, 5]`. -/
theorem claim6_counterexample :
    (sortMovie (loadBrightnessFile (sortMovie c6table).2)).1.map FrameData.mIndex ≠
      ((sortMovie c6table).2.map Prod.fst) := by
  norm_num [sortMovie, c6table, loadBrightnessFile, writeOffsets, round6, List.insertionSort,
    List.orderedInsert, FBSle, FrameBrightnessSort, roundBucket, cround, ROUND_TO,
    Int.floor_eq_iff, floatParse_025, floatParse_026]

/-- Claim C6, amended. Provided the composition of the sidecar's
6-fractional-digit decimal encoding and `fscanf`'s single-precision parse
does not move any record of the sorted table across a bucket boundary,
parsing `offsets.txt` and re-sorting under the comparator yields exactly the
written sequence of `(source_index, bucket)` pairs. -/
theorem claim6_roundtrip_amended (l : List FrameData)
    (hbk : ∀ f ∈ (sortMovie l).1,
      roundBucket (floatParse (round6 f.mBrightness)) = roundBucket f.mBrightness) :
    (sortMovie (loadBrightnessFile (sortMovie l).2)).1.map
        (fun f => (f.mIndex, roundBucket f.mBrightness)) =
      ((sortMovie l).1).map (fun f => (f.mIndex, roundBucket f.mBrightness)) := by
  have hparsed : loadBrightnessFile (sortMovie l).2 =
      ((sortMovie l).1).map fun f => ⟨f.mIndex, floatParse (round6 f.mBrightness)⟩ := by
    rw [sortMovie_snd, loadBrightnessFile, writeOffsets, List.map_map]
    rfl
  have hsorted : (((sortMovie l).1).map
      fun f => (⟨f.mIndex, floatParse (round6 f.mBrightness)⟩ : FrameData)).Pairwise FBSle := by
    rw [List.pairwise_map]
    refine (sortMovie_sorted l).imp_of_mem ?_
    intro a b ha hb hab
    have : FrameBrightnessSort
        (⟨b.mIndex, floatParse (round6 b.mBrightness)⟩ : FrameData)
        ⟨a.mIndex, floatParse (round6 a.mBrightness)⟩ = FrameBrightnessSort b a :=
      fbs_congr (hbk b hb) rfl (hbk a ha) rfl
    rw [FBSle, this]
    exact hab
  have hfix : (sortMovie (loadBrightnessFile (sortMovie l).2)).1 =
      loadBrightnessFile (sortMovie l).2 := by
    rw [sortMovie_fst, hparsed]
    exact List.Sorted.insertionSort_eq hsorted
  rw [hfix, hparsed, List.map_map]
  refine List.map_congr_left ?_
  intro f hf
  simp only [Function.comp]
  rw [hbk f hf]

/-- Witness for C6 at a table whose brightnesses `0.25` and `0.75` survive
both the decimal encoding and the binary32 parse exactly. -/
theorem claim6_witness :
    (sortMovie (loadBrightnessFile (sortMovie [⟨0, 1 / 4⟩, ⟨1, 3 / 4⟩]).2)).1.map
        (fun f => (f.mIndex, roundBucket f.mBrightness)) =
      ((sortMovie ([⟨0, 1 / 4⟩, ⟨1, 3 / 4⟩] : List FrameData)).1).map
        (fun f => (f.mIndex, roundBucket f.mBrightness)) :=
  claim6_roundtrip_amended [⟨0, 1 / 4⟩, ⟨1, 3 / 4⟩]
    (by
      intro f hf
      rw [sortMovie_fst] at hf
      norm_num [List.insertionSort, List.orderedInsert, FBSle, FrameBrightnessSort,
        roundBucket, cround, ROUND_TO, Int.floor_eq_iff] at hf
      rcases hf with hf | hf <;> subst hf <;>
        norm_num [round6, roundBucket, cround, ROUND_TO, Int.floor_eq_iff,
          floatParse_one_quarter, floatParse_three_quarters])

/-- A 2-frame source whose second frame fails to decode. -/
def failDecode : ℕ → Option Surface :=
  fun i => if i < 1 then some ⟨1, 1, [⟨255, 255, 255, 255⟩]⟩ else none

/-- Claim C7, counterexample. When decoding fails at frame 1 of 2, the job does
abort with no `output.mov` and no `offsets.txt`, but the partially built
frame table is *not* discarded: the record for frame 0 is still in
`mFrameData` after the `catch` handler runs. -/
theorem claim7_counterexample :
    (loadMovieFile failDecode 0 2).failed = true ∧
    (loadMovieFile failDecode 0 2).offsetsFile = none ∧
    (loadMovieFile failDecode 0 2).outputMovie = none ∧
    (loadMovieFile failDecode 0 2).mFrameData ≠ [] := by
  norm_num [loadMovieFile, processAllFrames, processFrames, processNextFrame,
    frameBrightness, failDecode]

/-- Claim C7, amended. Any adapter failure during pass 1 aborts the job in the
`catch` handler: neither `output.mov` nor `offsets.txt` is written — but the
partially built frame table is retained in `mFrameData`, not discarded. -/
theorem claim7_failure_semantics_amended
    (decode : ℕ → Option Surface) (startFrame numFrames : ℕ) (st : AppState)
    (h : processAllFrames decode startFrame numFrames = Except.error st) :
    (loadMovieFile decode startFrame numFrames).failed = true ∧
    (loadMovieFile decode startFrame numFrames).offsetsFile = none ∧
    (loadMovieFile decode startFrame numFrames).outputMovie = none ∧
    (loadMovieFile decode startFrame numFrames).mFrameData = st.mFrameData := by
  rw [loadMovieFile_error_spec h]
  exact ⟨rfl, rfl, rfl, rfl⟩

/-- Witness for C7: the decode failure at frame 1 of 2. -/
theorem claim7_witness :
    (loadMovieFile failDecode 0 2).failed = true ∧
    (loadMovieFile failDecode 0 2).offsetsFile = none ∧
    (loadMovieFile failDecode 0 2).outputMovie = none ∧
    (loadMovieFile failDecode 0 2).mFrameData = (AppState.mk 1 [⟨0, 1⟩]).mFrameData :=
  claim7_failure_semantics_amended failDecode 0 2 ⟨1, [⟨0, 1⟩]⟩
    (by norm_num [processAllFrames, processFrames, processNextFrame, frameBrightness,
      failDecode])

/-- Claim C8, counterexample. On the 0×0 surface the brightness computation does
not fail: `processNextFrame` computes a value (the unguarded `0/0`, rendered
`0` in the rational model, a NaN in the C++ doubles) and appends a record for
it — there is no `EmptySurface` error path in the code. -/
theorem claim8_counterexample :
    (processNextFrame ⟨0, []⟩ ⟨0, 0, []⟩).1.mFrameData = [⟨0, 0⟩] ∧
    (processNextFrame ⟨0, []⟩ ⟨0, 0, []⟩).2 = 0 := by
  norm_num [processNextFrame, frameBrightness]

/-- Claim C8, amended. The code has no zero-area guard: for every zero-area
surface the division by the pixel count is executed anyway (divisor `0`; the
rational model renders the quotient as `0` where the C++ doubles produce NaN)
and the record is appended to the table regardless. -/
theorem claim8_no_empty_guard_amended (st : AppState) (s : Surface)
    (h : s.width * s.height = 0) :
    (processNextFrame st s).1.mFrameData =
      st.mFrameData ++ [⟨st.mFrameIndex, frameBrightness s⟩] ∧
    frameBrightness s = 0 := by
  refine ⟨rfl, ?_⟩
  rw [frameBrightness]
  have hz : ((s.width : ℚ) * (s.height : ℚ)) = 0 := by
    have : ((s.width * s.height : ℕ) : ℚ) = 0 := by rw [h]; norm_num
    push_cast at this
    exact this
  rw [hz, div_zero]

/-- Witness for C8 at a 0×5 surface. -/
theorem claim8_witness :
    (processNextFrame ⟨3, []⟩ ⟨0, 5, []⟩).1.mFrameData =
      (AppState.mk 3 []).mFrameData ++ [⟨(AppState.mk 3 []).mFrameIndex,
        frameBrightness ⟨0, 5, []⟩⟩] ∧
    frameBrightness ⟨0, 5, []⟩ = 0 :=
  claim8_no_empty_guard_amended ⟨3, []⟩ ⟨0, 5, []⟩ (by norm_num)

/-- Claim C9, counterexample. At elapsed `0`, index `0`, total `1` (so `r = 0`
and `e ≥ 0`), `predict` does not return `+∞`: the code computes `0/0` (NaN in
the C++ doubles, `0` in this model), and neither is `+∞`. -/
theorem claim9_counterexample : predict 0 0 1 ≠ (⊤ : WithTop ℚ) := by
  simp [predict]

/-- Claim C9, amended. For `total > 0`: when `index ≠ 0` the prediction equals
`e·(1−r)/r` with `r = index/total`; when `r = 0` the result is `+∞` only for
`e ≠ 0`, while at `e = 0` the code computes the indeterminate `0/0` (NaN in
the doubles, `0` here), not `+∞`. -/
theorem claim9_predict_amended (elapsed : ℚ) (index total : ℕ) (h0 : 0 < total) :
    (index ≠ 0 → predict elapsed index total =
      ((elapsed * (1 - (index : ℚ) / (total : ℚ)) / ((index : ℚ) / (total : ℚ)) : ℚ) :
        WithTop ℚ)) ∧
    (index = 0 → elapsed ≠ 0 → predict elapsed index total = ⊤) ∧
    (index = 0 → elapsed = 0 → predict elapsed index total = 0) := by
  have htot : ((total : ℚ)) ≠ 0 := Nat.cast_ne_zero.2 (Nat.pos_iff_ne_zero.1 h0)
  refine ⟨?_, ?_, ?_⟩
  · intro hi
    have hr : ((index : ℚ) / (total : ℚ)) ≠ 0 :=
      div_ne_zero (Nat.cast_ne_zero.2 hi) htot
    simp only [predict, if_neg hr]
    rw [div_mul_eq_mul_div]
  · intro hi he
    subst hi
    simp [predict, he]
  · intro hi he
    subst hi
    simp [predict, he]

/-- Witness for C9 at elapsed `1`, index `0`, total `1`. -/
theorem claim9_witness :
    ((0 : ℕ) ≠ 0 → predict 1 0 1 =
      (((1 : ℚ) * (1 - ((0 : ℕ) : ℚ) / ((1 : ℕ) : ℚ)) / (((0 : ℕ) : ℚ) / ((1 : ℕ) : ℚ)) : ℚ) :
        WithTop ℚ)) ∧
    ((0 : ℕ) = 0 → (1 : ℚ) ≠ 0 → predict 1 0 1 = ⊤) ∧
    ((0 : ℕ) = 0 → (1 : ℚ) = 0 → predict 1 0 1 = 0) :=
  claim9_predict_amended 1 0 1 (by norm_num)

end LuminOrder
